import Mathlib

/-!
Shallow embedding of the Simple Invoice Generator (src/invoice.py).

Coordinates are modelled over the rationals: the reportlab constant
`mm` equals 72 / 25.4 points, which is the exact rational 360 / 127,
and every vertical-cursor computation in the source is a sum and
difference of such constants, so the rational model tracks the float
code exactly on the comparisons the layout makes (none of the page
threshold comparisons is ever an exact tie, see the pagination lemmas).

Drawing calls (canvas.drawString, canvas.drawRightString,
canvas.drawImage) are modelled as an ordered command list; the page a
command lands on is recorded on the command, and canvas.showPage is
modelled by the page and break counters.  Font selection calls carry no
content and are not modelled.  Text fields of the Tk user interface are
modelled by the outcome of the Python float() parse that the source
applies to them: `some q` when the text parses to the number q, `none`
when float() raises.
-/

namespace Invoice

/-- reportlab unit: `mm = 72 / 25.4` points, exactly `360 / 127`. -/
def mmQ : ℚ := 360 / 127

/-- Source: `PAGE_WIDTH, PAGE_HEIGHT = A4` (210mm by 297mm). -/
def PAGE_WIDTH : ℚ := 210 * mmQ

/-- Source: A4 page height, 297mm in points. -/
def PAGE_HEIGHT : ℚ := 297 * mmQ

/-- Source: `left_margin = 20 * mm`. -/
def left_margin : ℚ := 20 * mmQ

/-- Source: `right_margin = width - 20 * mm`. -/
def right_margin : ℚ := PAGE_WIDTH - 20 * mmQ

/-- Source: `top = height - 20 * mm`. -/
def topY : ℚ := PAGE_HEIGHT - 20 * mmQ

/-- Source: the item-loop page-break bound `40 * mm` (line `if y < 40 * mm`). -/
def lowThreshold : ℚ := 40 * mmQ

/-- Source: `table_top = top - 55 * mm`. -/
def table_top : ℚ := topY - 55 * mmQ

/-- Source: `CURRENCY = "USD"`. -/
def CURRENCY : String := "USD"

/-- Worker for wrapChunks, structurally recursive on a fuel bound so
that it reduces inside the kernel; with positive k every step shortens
the list, so fuel equal to the list length is always enough. -/
def wrapChunksAux (k : Nat) : Nat → List Char → List (List Char)
  | _, [] => []
  | 0, _ :: _ => []
  | fuel + 1, x :: xs => (x :: xs).take k :: wrapChunksAux k fuel ((x :: xs).drop k)

/-- Fixed-length slicing into chunks of k characters:
`[desc[i:i+max_chars] for i in range(0, len(desc), max_chars)]`. -/
def wrapChunks (k : Nat) (l : List Char) : List (List Char) :=
  wrapChunksAux k l.length l

/-- Round a rational to the nearest integer, ties to even — the
rounding used by Python string formatting of a representable value. -/
def roundHalfEven (q : ℚ) : ℤ :=
  let f := ⌊q⌋
  let r := q - (f : ℚ)
  if r < 1 / 2 then f
  else if 1 / 2 < r then f + 1
  else if f % 2 = 0 then f else f + 1

/-- Insert thousands separators into a list of decimal digits
(most significant first), as Python comma formatting does. -/
def commaGroup (ds : List Char) : String :=
  String.mk ((List.intersperse [','] (wrapChunks 3 ds.reverse)).flatten.reverse)

/-- Python format spec `,.2f`: two decimal digits, thousands
separators. -/
def fmtComma2 (v : ℚ) : String :=
  let c := roundHalfEven (v * 100)
  let n := c.natAbs
  let sign := if c < 0 then "-" else ""
  sign ++ commaGroup (Nat.toDigits 10 (n / 100)) ++ "." ++
    (if n % 100 < 10 then "0" else "") ++ toString (n % 100)

/-- Decimal rendering standing for Python str() on the numbers that
reach it (item quantity and the discount percent label).  No claim
constrains the exact text, only which command carries it; a number
with denominator 1 is shown the way Python shows an integral float. -/
def pyStr (q : ℚ) : String :=
  let sign := if q < 0 then "-" else ""
  if q.den = 1 then sign ++ toString q.num.natAbs ++ ".0"
  else sign ++ toString q.num.natAbs ++ "/" ++ toString q.den

/-- Source `money(v)`: try float(v) except -> 0.0, then
`f"{v:,.2f} {CURRENCY}"`.  The argument is the float() parse outcome. -/
def money (v : Option ℚ) : String := fmtComma2 (v.getD 0) ++ " " ++ CURRENCY

/-- One drawing command, tagged with the zero-based page it lands on.
`text` is canvas.drawString, `rtext` is canvas.drawRightString,
`image` is canvas.drawImage. -/
inductive Cmd where
  | text (page : Nat) (x y : ℚ) (s : String)
  | rtext (page : Nat) (x y : ℚ) (s : String)
  | image (page : Nat) (x y w h : ℚ)
deriving DecidableEq

/-- Vertical position of a drawing command. -/
def Cmd.ypos : Cmd → ℚ
  | .text _ _ y _ => y
  | .rtext _ _ y _ => y
  | .image _ _ y _ _ => y

/-- A line item as stored in `self.items`: the numeric fields were
already coerced to floats by add_item. -/
structure Item where
  desc : String
  qty : ℚ
  unit : ℚ
deriving DecidableEq

/-- Source: `company_info` dict. -/
structure CompanyInfo where
  name : String
  address_lines : List String
  notes : String
deriving DecidableEq

/-- Source: `invoice_meta` dict. -/
structure InvoiceMeta where
  date : String
  invoice_no : String
deriving DecidableEq

/-- Outcome of the logo probe in generate_pdf: no path set, path set
but the file does not exist, file exists but Image.open or drawImage
raises, or a decodable image with pixel size w by h. -/
inductive LogoSrc where
  | absent
  | missing
  | undecodable
  | ok (w h : Nat)
deriving DecidableEq

/-- Whether the logo probe yielded a decodable image. -/
def LogoSrc.isOk : LogoSrc → Bool
  | .ok _ _ => true
  | _ => false

/-- Logo fitting, from generate_pdf: aspect = h/w, target width 40mm,
target height 40mm*aspect, clipped to 25mm height with the width
rescaled when the height overflows. -/
def fitLogo (w h : Nat) : ℚ × ℚ :=
  let aspect : ℚ := (h : ℚ) / (w : ℚ)
  let target_h := 40 * mmQ * aspect
  if target_h > 25 * mmQ then (25 * mmQ / aspect, 25 * mmQ)
  else (40 * mmQ, target_h)

/-- The drawImage command for the logo, when the probe succeeded.  A
zero-width image makes `img_h / img_w` raise ZeroDivisionError, which
the except-clause swallows, so it draws nothing. -/
def logoCmds (logo : LogoSrc) : List Cmd :=
  match logo with
  | .ok w h =>
      if w = 0 then []
      else
        [Cmd.image 0 left_margin (topY - (fitLogo w h).2 - 5 * mmQ)
          (fitLogo w h).1 (fitLogo w h).2]
  | _ => []

/-- Company name and address block, from generate_pdf. -/
def companyCmds (company : CompanyInfo) : List Cmd :=
  Cmd.text 0 (left_margin + 40 * mmQ + 5 * mmQ) (topY - 5 * mmQ) company.name ::
  (company.address_lines.enum.map fun p =>
    Cmd.text 0 (left_margin + 40 * mmQ + 5 * mmQ)
      (topY - 5 * mmQ - 12 - 11 * (p.1 : ℚ)) p.2)

/-- Invoice label, date and number block, from generate_pdf. -/
def metaCmds (meta : InvoiceMeta) : List Cmd :=
  [Cmd.text 0 (right_margin - 70 * mmQ) (topY - 5 * mmQ) "Invoice",
   Cmd.text 0 (right_margin - 70 * mmQ) (topY - 5 * mmQ - 14)
     ("Date: " ++ meta.date),
   Cmd.text 0 (right_margin - 70 * mmQ) (topY - 5 * mmQ - 25)
     ("Invoice #: " ++ meta.invoice_no)]

/-- Table header row, from generate_pdf. -/
def tableHeaderCmds : List Cmd :=
  [Cmd.text 0 left_margin table_top "Description",
   Cmd.text 0 (left_margin + 95 * mmQ) table_top "Qty",
   Cmd.text 0 (left_margin + 110 * mmQ) table_top "Unit Price",
   Cmd.text 0 (left_margin + 140 * mmQ) table_top "Total"]

/-- Source: `lines = [desc[i:i+max_chars] for i in range(0, len(desc),
max_chars)] if desc else [""]` with max_chars = 50. -/
def descLines (desc : String) : List String :=
  if desc = "" then [""]
  else (wrapChunks 50 desc.toList).map fun cs => String.mk cs

/-- Total number of emitted item-row lines of an item list, wrapped
continuation lines included. -/
def lineCount (items : List Item) : Nat :=
  (items.map fun it => (descLines it.desc).length).sum

/-- Running state of the item loop of generate_pdf: current zero-based
page, vertical cursor y, number of showPage calls taken so far, the
commands emitted, and the running subtotal. -/
structure ItemsOut where
  page : Nat
  y : ℚ
  breaks : Nat
  cmds : List Cmd
  subtotal : ℚ
deriving DecidableEq

/-- Emit one wrapped line of an item row, advance the cursor by 11 and
apply the page-break check `if y < 40 * mm`. The first wrapped line
(li = 0) also carries the right-aligned quantity, unit price and line
total columns. -/
def emitItemLine (qty unit total : ℚ) (st : ItemsOut) (li : Nat)
    (line : String) : ItemsOut :=
  let newCmds :=
    if li = 0 then
      [Cmd.text st.page left_margin st.y line,
       Cmd.rtext st.page (left_margin + 120 * mmQ) st.y (pyStr qty),
       Cmd.rtext st.page (left_margin + 150 * mmQ) st.y (fmtComma2 unit),
       Cmd.rtext st.page right_margin st.y (fmtComma2 total)]
    else [Cmd.text st.page left_margin st.y line]
  if st.y - 11 < lowThreshold then
    { page := st.page + 1, y := PAGE_HEIGHT - 40 * mmQ,
      breaks := st.breaks + 1, cmds := st.cmds ++ newCmds,
      subtotal := st.subtotal }
  else
    { st with cmds := st.cmds ++ newCmds, y := st.y - 11 }

/-- One iteration of `for it in items`: accumulate the line total into
the subtotal and emit every wrapped description line. -/
def processItem (st : ItemsOut) (it : Item) : ItemsOut :=
  ((descLines it.desc).enum).foldl
    (fun s p => emitItemLine it.qty it.unit (it.qty * it.unit) s p.1 p.2)
    { st with subtotal := st.subtotal + it.qty * it.unit }

/-- Loop entry state: `y = table_top - 10`, first page, no breaks. -/
def itemsInit : ItemsOut :=
  { page := 0, y := table_top - 10, breaks := 0, cmds := [], subtotal := 0 }

/-- The whole item loop of generate_pdf. -/
def itemsLoop (items : List Item) : ItemsOut := items.foldl processItem itemsInit

/-- Result of the totals block of generate_pdf. -/
structure TotalsOut where
  cmds : List Cmd
  y : ℚ
  discount_amount : ℚ
  total_due : ℚ
deriving DecidableEq

/-- Totals block: Subtotal at y-8, Discount at y-20, Total Due at
y-32, all drawn on the current page with no page-break check. -/
def totalsBlock (pg : Nat) (y0 : ℚ) (subtotal discount_percent : ℚ) :
    TotalsOut :=
  let discount_amount := subtotal * (discount_percent / 100)
  let total_due := subtotal - discount_amount
  { cmds :=
      [Cmd.rtext pg (left_margin + 150 * mmQ) (y0 - 8) "Subtotal:",
       Cmd.rtext pg right_margin (y0 - 8) (fmtComma2 subtotal),
       Cmd.rtext pg (left_margin + 150 * mmQ) (y0 - 8 - 12)
         ("Discount (" ++ pyStr discount_percent ++ "%):"),
       Cmd.rtext pg right_margin (y0 - 8 - 12) ("-" ++ fmtComma2 discount_amount),
       Cmd.rtext pg (left_margin + 150 * mmQ) (y0 - 8 - 12 - 12) "Total Due:",
       Cmd.rtext pg right_margin (y0 - 8 - 12 - 12) (fmtComma2 total_due)],
    y := y0 - 8 - 12 - 12,
    discount_amount := discount_amount,
    total_due := total_due }

/-- Notes block: after y -= 25, a label then one line per
newline-delimited segment, with no page-break check. -/
def notesBlock (pg : Nat) (y0 : ℚ) (notes : String) : List Cmd :=
  if notes = "" then []
  else
    Cmd.text pg left_margin (y0 - 25) "Notes:" ::
    ((notes.splitOn "\n").enum.map fun p =>
      Cmd.text pg left_margin (y0 - 25 - 12 - 10 * (p.1 : ℚ)) p.2)

/-- The observable output of generate_pdf: the drawing commands in
order, the number of pages (showPage calls, one per item-loop break
plus the final one), and the computed money amounts. -/
structure PdfOut where
  cmds : List Cmd
  pages : Nat
  subtotal : ℚ
  discount_amount : ℚ
  total_due : ℚ
deriving DecidableEq

/-- Source `generate_pdf(output_path, company_info, logo_path, items,
discount_percent, invoice_meta)`, as the command stream it draws. -/
def generate_pdf (company : CompanyInfo) (logo : LogoSrc)
    (items : List Item) (discount_percent : ℚ) (meta : InvoiceMeta) :
    PdfOut :=
  let its := itemsLoop items
  let tot := totalsBlock its.page its.y its.subtotal discount_percent
  { cmds := logoCmds logo ++ companyCmds company ++ metaCmds meta ++
      tableHeaderCmds ++ its.cmds ++ tot.cmds ++
      notesBlock its.page tot.y company.notes,
    pages := its.breaks + 1,
    subtotal := its.subtotal,
    discount_amount := tot.discount_amount,
    total_due := tot.total_due }

/-- State of InvoiceApp that the modelled operations read or write.
Tk entry fields holding numbers appear as their float() parse outcome
(`none` when the text does not parse); the two label widgets appear as
the strings assigned to them. -/
structure AppState where
  items : List Item
  logo : LogoSrc
  company_name : String
  company_addr : String
  discountField : Option ℚ
  subtotal_lbl : String
  total_lbl : String
deriving DecidableEq

/-- Discount as computed by update_totals (lines 283-287): parse with
fallback 0, then `disc = max(0.0, disc)`. -/
def uiDiscount (d : Option ℚ) : ℚ := max 0 (d.getD 0)

/-- Discount as computed by generate_invoice_pdf (lines 302-305):
parse with fallback 0 and nothing else. -/
def pdfDiscount (d : Option ℚ) : ℚ := d.getD 0

/-- Subtotal loop of update_totals (lines 280-282). -/
def uiSubtotal (items : List Item) : ℚ :=
  items.foldl (fun s it => s + it.qty * it.unit) 0

/-- Source `InvoiceApp.update_totals`: recompute the subtotal, parse
and clamp the discount, and write both money labels. -/
def update_totals (st : AppState) : AppState :=
  let subtotal := uiSubtotal st.items
  let disc := uiDiscount st.discountField
  let total := subtotal - subtotal * (disc / 100)
  { st with subtotal_lbl := money (some subtotal),
            total_lbl := money (some total) }

/-- Source `InvoiceApp.add_item`: strip the description, coerce the
two numeric fields with fallback 0, reject an empty description
without touching the state, otherwise append the item and refresh the
totals. -/
def add_item (st : AppState) (descText : String)
    (qtyField unitField : Option ℚ) : AppState :=
  let desc := descText.trim
  let qty := qtyField.getD 0
  let unit := unitField.getD 0
  if desc = "" then st
  else update_totals { st with items := st.items ++ [⟨desc, qty, unit⟩] }

/-- The company dict built by generate_invoice_pdf (lines 297-301). -/
def companyOf (st : AppState) : CompanyInfo :=
  { name := st.company_name,
    address_lines :=
      ((st.company_addr.splitOn "\n").map String.trim).filter
        fun l => l ≠ "",
    notes := "Thank you for your business!" }

/-- Source `InvoiceApp.generate_invoice_pdf`: warn and return when the
item list is empty, otherwise build the company dict, parse the
discount with fallback 0 (no clamp), and call generate_pdf unless the
save dialog was cancelled.  The invoice meta comes from the clock and
is a parameter here; `savePathGiven` is whether the dialog returned a
path.  The method never mutates the state it reads. -/
def generate_invoice_pdf (st : AppState) (meta : InvoiceMeta)
    (savePathGiven : Bool) : AppState × Option PdfOut :=
  if st.items = [] then (st, none)
  else if savePathGiven then
    (st, some (generate_pdf (companyOf st) st.logo st.items
      (pdfDiscount st.discountField) meta))
  else (st, none)

/-! ## Subtotal lemmas -/

/-- Sum of the line totals, the S of the spec. -/
def sumLineTotals (items : List Item) : ℚ :=
  (items.map fun it => it.qty * it.unit).sum

lemma emitItemLine_subtotal (q u t : ℚ) (st : ItemsOut) (li : Nat)
    (line : String) :
    (emitItemLine q u t st li line).subtotal = st.subtotal := by
  unfold emitItemLine
  by_cases h1 : li = 0 <;> by_cases h2 : st.y - 11 < lowThreshold <;>
    simp [h1, h2]

lemma foldl_emit_subtotal (q u t : ℚ) (l : List (Nat × String))
    (st : ItemsOut) :
    (l.foldl (fun s p => emitItemLine q u t s p.1 p.2) st).subtotal =
      st.subtotal := by
  induction l generalizing st with
  | nil => rfl
  | cons p ps ih => rw [List.foldl_cons, ih, emitItemLine_subtotal]

lemma processItem_subtotal (st : ItemsOut) (it : Item) :
    (processItem st it).subtotal = st.subtotal + it.qty * it.unit := by
  unfold processItem
  rw [foldl_emit_subtotal]

lemma foldl_processItem_subtotal (items : List Item) (st : ItemsOut) :
    (items.foldl processItem st).subtotal = st.subtotal + sumLineTotals items := by
  induction items generalizing st with
  | nil => simp [sumLineTotals]
  | cons it its ih =>
    rw [List.foldl_cons, ih, processItem_subtotal]
    simp [sumLineTotals]
    ring

lemma itemsLoop_subtotal (items : List Item) :
    (itemsLoop items).subtotal = sumLineTotals items := by
  unfold itemsLoop
  rw [foldl_processItem_subtotal]
  simp [itemsInit]

lemma foldl_add_items (items : List Item) (a : ℚ) :
    items.foldl (fun s it => s + it.qty * it.unit) a = a + sumLineTotals items := by
  induction items generalizing a with
  | nil => simp [sumLineTotals]
  | cons it its ih =>
    rw [List.foldl_cons, ih]
    simp [sumLineTotals]
    ring

/-! ## Pagination lemmas -/

lemma lowThreshold_le_reset : lowThreshold ≤ PAGE_HEIGHT - 40 * mmQ := by
  norm_num [lowThreshold, PAGE_HEIGHT, mmQ]

lemma lowThreshold_le_init : lowThreshold ≤ itemsInit.y := by
  norm_num [lowThreshold, itemsInit, table_top, topY, PAGE_HEIGHT, mmQ]

lemma emitItemLine_break (q u t : ℚ) (st : ItemsOut) (li : Nat) (line : String)
    (h : st.y - 11 < lowThreshold) :
    (emitItemLine q u t st li line).y = PAGE_HEIGHT - 40 * mmQ ∧
    (emitItemLine q u t st li line).page = st.page + 1 ∧
    (emitItemLine q u t st li line).breaks = st.breaks + 1 := by
  unfold emitItemLine
  by_cases h1 : li = 0 <;> simp [h1, h]

lemma emitItemLine_no_break (q u t : ℚ) (st : ItemsOut) (li : Nat) (line : String)
    (h : ¬(st.y - 11 < lowThreshold)) :
    (emitItemLine q u t st li line).y = st.y - 11 ∧
    (emitItemLine q u t st li line).page = st.page ∧
    (emitItemLine q u t st li line).breaks = st.breaks := by
  unfold emitItemLine
  by_cases h1 : li = 0 <;> simp [h1, h]

lemma emitItemLine_breaks_le (q u t : ℚ) (st : ItemsOut) (li : Nat)
    (line : String) :
    st.breaks ≤ (emitItemLine q u t st li line).breaks := by
  unfold emitItemLine
  by_cases h1 : li = 0 <;> by_cases h2 : st.y - 11 < lowThreshold <;>
    simp [h1, h2]

lemma emitItemLine_cmds (q u t : ℚ) (st : ItemsOut) (li : Nat) (line : String) :
    (emitItemLine q u t st li line).cmds =
      st.cmds ++
        (if li = 0 then
          [Cmd.text st.page left_margin st.y line,
           Cmd.rtext st.page (left_margin + 120 * mmQ) st.y (pyStr q),
           Cmd.rtext st.page (left_margin + 150 * mmQ) st.y (fmtComma2 u),
           Cmd.rtext st.page right_margin st.y (fmtComma2 t)]
         else [Cmd.text st.page left_margin st.y line]) := by
  unfold emitItemLine
  by_cases h1 : li = 0 <;> by_cases h2 : st.y - 11 < lowThreshold <;>
    simp [h1, h2]

lemma emitItemLine_inv (q u t : ℚ) (st : ItemsOut) (li : Nat) (line : String)
    (h1 : lowThreshold ≤ st.y) (h2 : ∀ c ∈ st.cmds, lowThreshold ≤ c.ypos) :
    lowThreshold ≤ (emitItemLine q u t st li line).y ∧
      ∀ c ∈ (emitItemLine q u t st li line).cmds, lowThreshold ≤ c.ypos := by
  have hnew : ∀ c ∈ (emitItemLine q u t st li line).cmds, lowThreshold ≤ c.ypos := by
    rw [emitItemLine_cmds]
    intro c hc
    rcases List.mem_append.mp hc with h | h
    · exact h2 c h
    · by_cases hli : li = 0 <;> simp [hli] at h <;>
        first
          | (rcases h with h | h | h | h <;> subst h <;> simpa [Cmd.ypos] using h1)
          | (subst h; simpa [Cmd.ypos] using h1)
  refine ⟨?_, hnew⟩
  by_cases hbr : st.y - 11 < lowThreshold
  · rw [(emitItemLine_break q u t st li line hbr).1]
    exact lowThreshold_le_reset
  · rw [(emitItemLine_no_break q u t st li line hbr).1]
    linarith [not_lt.mp hbr]

lemma foldl_emit_inv (q u t : ℚ) (l : List (Nat × String)) (st : ItemsOut)
    (h1 : lowThreshold ≤ st.y) (h2 : ∀ c ∈ st.cmds, lowThreshold ≤ c.ypos) :
    lowThreshold ≤ (l.foldl (fun s p => emitItemLine q u t s p.1 p.2) st).y ∧
      ∀ c ∈ (l.foldl (fun s p => emitItemLine q u t s p.1 p.2) st).cmds,
        lowThreshold ≤ c.ypos := by
  induction l generalizing st with
  | nil => exact ⟨h1, h2⟩
  | cons p ps ih =>
    rw [List.foldl_cons]
    obtain ⟨g1, g2⟩ := emitItemLine_inv q u t st p.1 p.2 h1 h2
    exact ih _ g1 g2

lemma processItem_inv (st : ItemsOut) (it : Item)
    (h1 : lowThreshold ≤ st.y) (h2 : ∀ c ∈ st.cmds, lowThreshold ≤ c.ypos) :
    lowThreshold ≤ (processItem st it).y ∧
      ∀ c ∈ (processItem st it).cmds, lowThreshold ≤ c.ypos := by
  unfold processItem
  exact foldl_emit_inv _ _ _ _ _ h1 h2

lemma foldl_processItem_inv (items : List Item) (st : ItemsOut)
    (h1 : lowThreshold ≤ st.y) (h2 : ∀ c ∈ st.cmds, lowThreshold ≤ c.ypos) :
    lowThreshold ≤ (items.foldl processItem st).y ∧
      ∀ c ∈ (items.foldl processItem st).cmds, lowThreshold ≤ c.ypos := by
  induction items generalizing st with
  | nil => exact ⟨h1, h2⟩
  | cons it its ih =>
    rw [List.foldl_cons]
    obtain ⟨g1, g2⟩ := processItem_inv st it h1 h2
    exact ih _ g1 g2

lemma itemsLoop_inv (items : List Item) :
    lowThreshold ≤ (itemsLoop items).y ∧
      ∀ c ∈ (itemsLoop items).cmds, lowThreshold ≤ c.ypos := by
  unfold itemsLoop
  exact foldl_processItem_inv items itemsInit lowThreshold_le_init (by simp [itemsInit])

lemma emitItemLine_y_of_breaks_eq (q u t : ℚ) (st : ItemsOut) (li : Nat)
    (line : String)
    (h : (emitItemLine q u t st li line).breaks = st.breaks) :
    (emitItemLine q u t st li line).y = st.y - 11 ∧
    (emitItemLine q u t st li line).page = st.page := by
  by_cases hbr : st.y - 11 < lowThreshold
  · have := (emitItemLine_break q u t st li line hbr).2.2
    omega
  · obtain ⟨hy, hp, _⟩ := emitItemLine_no_break q u t st li line hbr
    exact ⟨hy, hp⟩

lemma foldl_emit_breaks_le (q u t : ℚ) (l : List (Nat × String)) (st : ItemsOut) :
    st.breaks ≤ (l.foldl (fun s p => emitItemLine q u t s p.1 p.2) st).breaks := by
  induction l generalizing st with
  | nil => exact le_refl _
  | cons p ps ih =>
    rw [List.foldl_cons]
    exact le_trans (emitItemLine_breaks_le q u t st p.1 p.2) (ih _)

lemma foldl_emit_no_break (q u t : ℚ) (l : List (Nat × String)) (st : ItemsOut)
    (h : (l.foldl (fun s p => emitItemLine q u t s p.1 p.2) st).breaks = st.breaks) :
    (l.foldl (fun s p => emitItemLine q u t s p.1 p.2) st).y =
        st.y - 11 * l.length ∧
      (l.foldl (fun s p => emitItemLine q u t s p.1 p.2) st).page = st.page := by
  induction l generalizing st with
  | nil => simp
  | cons p ps ih =>
    rw [List.foldl_cons] at h ⊢
    have hle1 := emitItemLine_breaks_le q u t st p.1 p.2
    have hle2 := foldl_emit_breaks_le q u t ps (emitItemLine q u t st p.1 p.2)
    have hmid : (emitItemLine q u t st p.1 p.2).breaks = st.breaks := by omega
    obtain ⟨hy1, hp1⟩ := emitItemLine_y_of_breaks_eq q u t st p.1 p.2 hmid
    obtain ⟨hy2, hp2⟩ := ih (emitItemLine q u t st p.1 p.2) (by omega)
    rw [hy2, hy1, hp2, hp1]
    refine ⟨?_, rfl⟩
    simp only [List.length_cons]
    push_cast
    ring

lemma processItem_breaks_le (st : ItemsOut) (it : Item) :
    st.breaks ≤ (processItem st it).breaks := by
  unfold processItem
  exact foldl_emit_breaks_le it.qty it.unit (it.qty * it.unit)
    ((descLines it.desc).enum)
    { st with subtotal := st.subtotal + it.qty * it.unit }

lemma processItem_no_break (st : ItemsOut) (it : Item)
    (h : (processItem st it).breaks = st.breaks) :
    (processItem st it).y = st.y - 11 * (descLines it.desc).length ∧
      (processItem st it).page = st.page := by
  unfold processItem at h ⊢
  obtain ⟨hy, hp⟩ := foldl_emit_no_break _ _ _ _ _ h
  rw [hy, hp]
  simp [List.enum_length]

lemma foldl_processItem_breaks_le (items : List Item) (st : ItemsOut) :
    st.breaks ≤ (items.foldl processItem st).breaks := by
  induction items generalizing st with
  | nil => exact le_refl _
  | cons it its ih =>
    rw [List.foldl_cons]
    exact le_trans (processItem_breaks_le st it) (ih _)

lemma foldl_processItem_no_break (items : List Item) (st : ItemsOut)
    (h : (items.foldl processItem st).breaks = st.breaks) :
    (items.foldl processItem st).y = st.y - 11 * lineCount items ∧
      (items.foldl processItem st).page = st.page := by
  induction items generalizing st with
  | nil => simp [lineCount]
  | cons it its ih =>
    rw [List.foldl_cons] at h ⊢
    have hle1 := processItem_breaks_le st it
    have hle2 := foldl_processItem_breaks_le its (processItem st it)
    have hmid : (processItem st it).breaks = st.breaks := by omega
    obtain ⟨hy1, hp1⟩ := processItem_no_break st it hmid
    obtain ⟨hy2, hp2⟩ := ih (processItem st it) (by omega)
    rw [hy2, hy1, hp2, hp1]
    refine ⟨?_, rfl⟩
    simp only [lineCount, List.map_cons, List.sum_cons]
    push_cast
    ring

lemma foldl_emit_stay (q u t : ℚ) (l : List (Nat × String)) (st : ItemsOut)
    (h : lowThreshold ≤ st.y - 11 * l.length) :
    (l.foldl (fun s p => emitItemLine q u t s p.1 p.2) st).breaks = st.breaks ∧
      (l.foldl (fun s p => emitItemLine q u t s p.1 p.2) st).y =
        st.y - 11 * l.length ∧
      (l.foldl (fun s p => emitItemLine q u t s p.1 p.2) st).page = st.page := by
  induction l generalizing st with
  | nil => simp
  | cons p ps ih =>
    rw [List.foldl_cons]
    have hlen : ((p :: ps).length : ℚ) = (ps.length : ℚ) + 1 := by
      push_cast [List.length_cons]
      ring
    rw [hlen] at h
    have hnb : ¬(st.y - 11 < lowThreshold) := by
      push_neg
      have : (0:ℚ) ≤ 11 * ps.length := by positivity
      linarith
    obtain ⟨hy1, hp1, hb1⟩ := emitItemLine_no_break q u t st p.1 p.2 hnb
    obtain ⟨hb2, hy2, hp2⟩ := ih (emitItemLine q u t st p.1 p.2) (by
      rw [hy1]
      linarith)
    rw [hb2, hb1, hy2, hy1, hp2, hp1, hlen]
    refine ⟨rfl, by ring, rfl⟩

lemma processItem_stay (st : ItemsOut) (it : Item)
    (h : lowThreshold ≤ st.y - 11 * (descLines it.desc).length) :
    (processItem st it).breaks = st.breaks ∧
      (processItem st it).y = st.y - 11 * (descLines it.desc).length ∧
      (processItem st it).page = st.page := by
  unfold processItem
  have hlen : (((descLines it.desc).enum).length : ℚ) =
      ((descLines it.desc).length : ℚ) := by
    rw [List.enum_length]
  obtain ⟨hb, hy, hp⟩ := foldl_emit_stay it.qty it.unit (it.qty * it.unit)
    ((descLines it.desc).enum)
    { st with subtotal := st.subtotal + it.qty * it.unit } (by
      show lowThreshold ≤ st.y - 11 * ((descLines it.desc).enum).length
      rw [hlen]
      exact h)
  rw [hb, hy, hp, hlen]
  exact ⟨rfl, rfl, rfl⟩

lemma foldl_processItem_stay (items : List Item) (st : ItemsOut)
    (h : lowThreshold ≤ st.y - 11 * lineCount items) :
    (items.foldl processItem st).breaks = st.breaks ∧
      (items.foldl processItem st).y = st.y - 11 * lineCount items ∧
      (items.foldl processItem st).page = st.page := by
  induction items generalizing st with
  | nil => simp [lineCount]
  | cons it its ih =>
    rw [List.foldl_cons]
    have hlc : (lineCount (it :: its) : ℚ) =
        ((descLines it.desc).length : ℚ) + lineCount its := by
      simp only [lineCount, List.map_cons, List.sum_cons]
      push_cast
      ring
    rw [hlc] at h
    have h1 : lowThreshold ≤ st.y - 11 * (descLines it.desc).length := by
      have : (0:ℚ) ≤ 11 * lineCount its := by positivity
      linarith
    obtain ⟨hb1, hy1, hp1⟩ := processItem_stay st it h1
    obtain ⟨hb2, hy2, hp2⟩ := ih (processItem st it) (by
      rw [hy1]
      linarith)
    rw [hb2, hb1, hy2, hy1, hp2, hp1, hlc]
    refine ⟨rfl, by ring, rfl⟩

/-! ## Claim theorems: totals -/

/-- C1: for every item list with line totals summing to S and every
discount percent d at least 0, generate_pdf reports subtotal S,
discount amount S*d/100 and total due S - S*d/100; in particular one
item with qty 2 and unit price 100 at 10 percent discount gives
subtotal 200, discount 20, total due 180. -/
theorem C1_totals_formula :
    (∀ (company : CompanyInfo) (logo : LogoSrc) (items : List Item) (d : ℚ)
        (meta : InvoiceMeta), 0 ≤ d →
      (generate_pdf company logo items d meta).subtotal = sumLineTotals items ∧
      (generate_pdf company logo items d meta).discount_amount =
        sumLineTotals items * d / 100 ∧
      (generate_pdf company logo items d meta).total_due =
        sumLineTotals items - sumLineTotals items * d / 100) ∧
    ((generate_pdf ⟨"C", [], ""⟩ .absent [⟨"Consulting", 2, 100⟩] 10
        ⟨"2026-10-12", "1"⟩).subtotal = 200 ∧
     (generate_pdf ⟨"C", [], ""⟩ .absent [⟨"Consulting", 2, 100⟩] 10
        ⟨"2026-10-12", "1"⟩).discount_amount = 20 ∧
     (generate_pdf ⟨"C", [], ""⟩ .absent [⟨"Consulting", 2, 100⟩] 10
        ⟨"2026-10-12", "1"⟩).total_due = 180) := by
  constructor
  · intro company logo items d meta _
    refine ⟨?_, ?_, ?_⟩ <;>
      simp [generate_pdf, totalsBlock, itemsLoop_subtotal] <;> ring
  · have hs : sumLineTotals [⟨"Consulting", 2, 100⟩] = 200 := by
      norm_num [sumLineTotals]
    refine ⟨?_, ?_, ?_⟩ <;>
      simp [generate_pdf, totalsBlock, itemsLoop_subtotal, hs] <;> norm_num

/-- Witness for C1 at a concrete input. -/
theorem C1_totals_formula_witness :
    (generate_pdf ⟨"C", [], ""⟩ .absent [⟨"A", 1, 2⟩] 5 ⟨"d", "n"⟩).total_due =
      sumLineTotals [⟨"A", 1, 2⟩] - sumLineTotals [⟨"A", 1, 2⟩] * 5 / 100 :=
  (C1_totals_formula.1 ⟨"C", [], ""⟩ .absent [⟨"A", 1, 2⟩] 5 ⟨"d", "n"⟩
    (by norm_num)).2.2

/-- C3: an invoice whose rows exceed the usable height of one page
produces at least 2 pages; every item-row command is drawn at or above
the 40mm low-margin threshold; and whenever the cursor crosses the
threshold the page is closed (break counter up by one) and the cursor
reset to the fixed top offset height - 40mm. -/
theorem C3_pagination :
    (∀ (items : List Item) (company : CompanyInfo) (logo : LogoSrc) (d : ℚ)
        (meta : InvoiceMeta),
        itemsInit.y - lowThreshold < 11 * (lineCount items : ℚ) →
        2 ≤ (generate_pdf company logo items d meta).pages) ∧
    (∀ items : List Item, ∀ c ∈ (itemsLoop items).cmds, lowThreshold ≤ c.ypos) ∧
    (∀ (q u t : ℚ) (st : ItemsOut) (li : Nat) (line : String),
        st.y - 11 < lowThreshold →
        (emitItemLine q u t st li line).y = PAGE_HEIGHT - 40 * mmQ ∧
        (emitItemLine q u t st li line).page = st.page + 1 ∧
        (emitItemLine q u t st li line).breaks = st.breaks + 1) := by
  refine ⟨?_, ?_, ?_⟩
  · intro items company logo d meta hh
    have hpages : (generate_pdf company logo items d meta).pages =
        (itemsLoop items).breaks + 1 := rfl
    rw [hpages]
    rcases Nat.eq_zero_or_pos (itemsLoop items).breaks with h0 | hpos
    · exfalso
      have h0' : (items.foldl processItem itemsInit).breaks = itemsInit.breaks := by
        simpa [itemsLoop, itemsInit] using h0
      obtain ⟨hy, _⟩ := foldl_processItem_no_break items itemsInit h0'
      have hinv := (itemsLoop_inv items).1
      rw [show itemsLoop items = items.foldl processItem itemsInit from rfl, hy] at hinv
      linarith
    · omega
  · intro items
    exact (itemsLoop_inv items).2
  · intro q u t st li line h
    exact emitItemLine_break q u t st li line h

lemma lineCount_replicate_a (n : Nat) :
    lineCount (List.replicate n ⟨"a", 1, 1⟩) = n := by
  induction n with
  | zero => simp [lineCount]
  | succ k ih =>
    rw [List.replicate_succ]
    simp only [lineCount, List.map_cons, List.sum_cons] at ih ⊢
    rw [ih, show (descLines "a").length = 1 from rfl]
    omega

lemma ex46_exceeds :
    itemsInit.y - lowThreshold <
      11 * (lineCount (List.replicate 46 ⟨"a", 1, 1⟩) : ℚ) := by
  rw [lineCount_replicate_a]
  norm_num [itemsInit, table_top, topY, PAGE_HEIGHT, lowThreshold, mmQ]

lemma first_cmd_mem :
    Cmd.text 0 left_margin itemsInit.y "a" ∈ (itemsLoop [⟨"a", 1, 1⟩]).cmds := by
  have : (itemsLoop [⟨"a", 1, 1⟩]).cmds =
      Cmd.text 0 left_margin itemsInit.y "a" ::
        [Cmd.rtext 0 (left_margin + 120 * mmQ) itemsInit.y (pyStr 1),
         Cmd.rtext 0 (left_margin + 150 * mmQ) itemsInit.y (fmtComma2 1),
         Cmd.rtext 0 right_margin itemsInit.y (fmtComma2 1)] := by
    show (processItem itemsInit ⟨"a", 1, 1⟩).cmds = _
    unfold processItem
    rw [show descLines "a" = ["a"] from rfl]
    simp only [List.enum, List.enumFrom, List.foldl_cons, List.foldl_nil]
    rw [emitItemLine_cmds]
    simp [itemsInit]
  rw [this]
  exact List.mem_cons_self _ _

lemma threshold_state_breaks :
    (⟨0, lowThreshold, 0, [], 0⟩ : ItemsOut).y - 11 < lowThreshold := by
  norm_num

/-- Witness for C3: 46 one-line items exceed the first page, the
first command of a one-item loop sits above the threshold, and a
cursor exactly at the threshold triggers the reset. -/
theorem C3_pagination_witness :
    2 ≤ (generate_pdf ⟨"C", [], ""⟩ .absent (List.replicate 46 ⟨"a", 1, 1⟩) 0
        ⟨"d", "n"⟩).pages ∧
    lowThreshold ≤ (Cmd.text 0 left_margin itemsInit.y "a").ypos ∧
    ((emitItemLine 1 1 1 ⟨0, lowThreshold, 0, [], 0⟩ 0 "a").y =
        PAGE_HEIGHT - 40 * mmQ ∧
      (emitItemLine 1 1 1 ⟨0, lowThreshold, 0, [], 0⟩ 0 "a").page = 0 + 1 ∧
      (emitItemLine 1 1 1 ⟨0, lowThreshold, 0, [], 0⟩ 0 "a").breaks = 0 + 1) :=
  ⟨C3_pagination.1 (List.replicate 46 ⟨"a", 1, 1⟩) ⟨"C", [], ""⟩ .absent 0
      ⟨"d", "n"⟩ ex46_exceeds,
   C3_pagination.2.1 [⟨"a", 1, 1⟩] (Cmd.text 0 left_margin itemsInit.y "a")
      first_cmd_mem,
   C3_pagination.2.2 1 1 1 ⟨0, lowThreshold, 0, [], 0⟩ 0 "a"
      threshold_state_breaks⟩

/-! ## Wrapping lemmas -/

lemma wrapChunksAux_congr (k : Nat) (hk : 0 < k) :
    ∀ (f1 : Nat) (l : List Char) (f2 : Nat), l.length ≤ f1 → l.length ≤ f2 →
      wrapChunksAux k f1 l = wrapChunksAux k f2 l := by
  intro f1
  induction f1 with
  | zero =>
    intro l f2 h1 _
    have hempty : l = [] := List.eq_nil_of_length_eq_zero (Nat.le_zero.mp h1)
    subst hempty
    cases f2 <;> rfl
  | succ f ih =>
    intro l f2 h1 h2
    cases l with
    | nil => cases f2 <;> rfl
    | cons x xs =>
      cases f2 with
      | zero => simp at h2
      | succ f2' =>
        simp only [wrapChunksAux]
        congr 1
        have hd : ((x :: xs).drop k).length = xs.length + 1 - k := by
          simp [List.length_drop]
        apply ih
        · rw [hd]
          simp only [List.length_cons] at h1
          omega
        · rw [hd]
          simp only [List.length_cons] at h2
          omega

lemma wrapChunks_nil (k : Nat) : wrapChunks k [] = [] := rfl

lemma wrapChunks_cons (k : Nat) (hk : 0 < k) (l : List Char) (hl : l ≠ []) :
    wrapChunks k l = l.take k :: wrapChunks k (l.drop k) := by
  unfold wrapChunks
  cases l with
  | nil => exact absurd rfl hl
  | cons x xs =>
    simp only [List.length_cons, wrapChunksAux]
    congr 1
    apply wrapChunksAux_congr k hk
    · simp only [List.length_drop, List.length_cons]
      omega
    · exact le_refl _

lemma wrapChunks_length (k : Nat) (hk : 0 < k) :
    ∀ l : List Char, l ≠ [] →
      (wrapChunks k l).length = (l.length - 1) / k + 1 := by
  intro l hl
  rw [wrapChunks_cons k hk l hl, List.length_cons]
  by_cases hle : l.length ≤ k
  · have hdrop : l.drop k = [] := by
      rw [List.drop_eq_nil_iff]
      exact hle
    rw [hdrop, wrapChunks_nil]
    have hpos := List.length_pos.mpr hl
    have hdiv : (l.length - 1) / k = 0 := Nat.div_eq_of_lt (by omega)
    simp only [List.length_nil]
    omega
  · push_neg at hle
    have hne : l.drop k ≠ [] := by
      apply List.length_pos.mp
      simp only [List.length_drop]
      omega
    rw [wrapChunks_length k hk (l.drop k) hne, List.length_drop]
    have h2 : l.length - 1 = (l.length - k - 1) + k := by omega
    rw [h2, Nat.add_div_right _ hk]
termination_by l => l.length
decreasing_by
  simp only [List.length_drop]
  omega

/-! ## Claim theorem: wrapping -/

/-- C4: a nonempty description of length L wraps into exactly
ceil(L/50) lines and an empty description yields one blank line; the
first wrapped line carries the right-aligned quantity, unit price and
line total columns, subsequent lines carry the description chunk
only. -/
theorem C4_wrapping :
    (∀ desc : String, desc ≠ "" →
      (descLines desc).length = (desc.length + 50 - 1) / 50) ∧
    descLines "" = [""] ∧
    (∀ (q u t : ℚ) (st : ItemsOut) (line : String),
      (emitItemLine q u t st 0 line).cmds =
        st.cmds ++
          [Cmd.text st.page left_margin st.y line,
           Cmd.rtext st.page (left_margin + 120 * mmQ) st.y (pyStr q),
           Cmd.rtext st.page (left_margin + 150 * mmQ) st.y (fmtComma2 u),
           Cmd.rtext st.page right_margin st.y (fmtComma2 t)]) ∧
    (∀ (q u t : ℚ) (st : ItemsOut) (li : Nat) (line : String), li ≠ 0 →
      (emitItemLine q u t st li line).cmds =
        st.cmds ++ [Cmd.text st.page left_margin st.y line]) := by
  refine ⟨?_, rfl, ?_, ?_⟩
  · intro desc hd
    unfold descLines
    rw [if_neg hd, List.length_map]
    have hl : desc.toList ≠ [] := by
      intro h
      exact hd (by
        apply String.ext
        simpa [String.toList] using h)
    rw [wrapChunks_length 50 (by norm_num) desc.toList hl]
    have hL : 0 < desc.toList.length := List.length_pos.mpr hl
    have hsplit : desc.toList.length + 50 - 1 = (desc.toList.length - 1) + 50 := by
      omega
    rw [show desc.length = desc.toList.length from rfl, hsplit,
      Nat.add_div_right _ (by norm_num)]
  · intro q u t st line
    rw [emitItemLine_cmds]
    simp
  · intro q u t st li line h
    rw [emitItemLine_cmds]
    simp [h]

/-- Witness for C4 at a concrete description and continuation line. -/
theorem C4_wrapping_witness :
    (descLines "abc").length = ("abc".length + 50 - 1) / 50 ∧
    (emitItemLine 1 1 1 itemsInit 1 "x").cmds =
      itemsInit.cmds ++ [Cmd.text itemsInit.page left_margin itemsInit.y "x"] :=
  ⟨C4_wrapping.1 "abc" (of_decide_eq_true (by with_unfolding_all rfl)),
   C4_wrapping.2.2.2 1 1 1 itemsInit 1 "x" (by decide)⟩

/-- C10: the subtotal computed by update_totals and the subtotal
computed inside generate_pdf agree on every item list. -/
theorem C10_subtotal_agree (items : List Item) :
    uiSubtotal items = (itemsLoop items).subtotal := by
  rw [itemsLoop_subtotal]
  unfold uiSubtotal
  rw [foldl_add_items]
  simp

/-! ## Remaining claim theorems -/

/-- Counterexample to C2: a discount field parsing to -10 reaches the
PDF path unclamped — the percent passed on is negative and the
generated PDF carries discount amount -10. -/
theorem C2_counterexample :
    pdfDiscount (some (-10)) < 0 ∧
    Option.map PdfOut.discount_amount
        (generate_invoice_pdf
          ⟨[⟨"A", 1, 100⟩], .absent, "C", "X", some (-10), "", ""⟩
          ⟨"d", "n"⟩ true).2 = some (-10) := by
  constructor
  · norm_num [pdfDiscount]
  · have hs : (itemsLoop [⟨"A", 1, 100⟩]).subtotal = 100 := by
      rw [itemsLoop_subtotal]
      norm_num [sumLineTotals]
    simp [generate_invoice_pdf, generate_pdf, totalsBlock, pdfDiscount, hs]
    norm_num

/-- C2 amended: the ≥0 clamp on the discount exists only on the
totals-display path (update_totals); generate_invoice_pdf hands the
parsed value to generate_pdf unclamped, so a negative input yields a
negative discount percent in the PDF, and values above 100 pass
through unchanged. -/
theorem C2_clamp_amended :
    (∀ d : Option ℚ, 0 ≤ uiDiscount d) ∧
    (∀ (st : AppState) (meta : InvoiceMeta), st.items ≠ [] →
      generate_invoice_pdf st meta true =
        (st, some (generate_pdf (companyOf st) st.logo st.items
          (st.discountField.getD 0) meta))) ∧
    (∀ q : ℚ, 100 < q → uiDiscount (some q) = q) := by
  refine ⟨?_, ?_, ?_⟩
  · intro d
    exact le_max_left 0 _
  · intro st meta h
    unfold generate_invoice_pdf
    rw [if_neg h]
    rfl
  · intro q hq
    unfold uiDiscount
    simp only [Option.getD_some]
    exact max_eq_right (by linarith)

/-- Witness for C2 amended at concrete inputs. -/
theorem C2_clamp_amended_witness :
    0 ≤ uiDiscount (some (-5)) ∧
    generate_invoice_pdf ⟨[⟨"A", 1, 1⟩], .absent, "C", "X", some (-5), "", ""⟩
        ⟨"d", "n"⟩ true =
      (⟨[⟨"A", 1, 1⟩], .absent, "C", "X", some (-5), "", ""⟩,
        some (generate_pdf
          (companyOf ⟨[⟨"A", 1, 1⟩], .absent, "C", "X", some (-5), "", ""⟩)
          .absent [⟨"A", 1, 1⟩] ((some (-5) : Option ℚ).getD 0) ⟨"d", "n"⟩)) ∧
    uiDiscount (some 150) = 150 :=
  ⟨C2_clamp_amended.1 (some (-5)),
   C2_clamp_amended.2.1 ⟨[⟨"A", 1, 1⟩], .absent, "C", "X", some (-5), "", ""⟩
      ⟨"d", "n"⟩ (by decide),
   C2_clamp_amended.2.2 150 (by decide)⟩

/-- C5: malformed numeric input is coerced to 0 at every parse site:
add_item stores qty 0 and unit 0; the totals labels for a malformed
discount match those for an explicit 0; the PDF path parses a
malformed discount as 0; and money renders a malformed value as
zero. -/
theorem C5_malformed_zero :
    (∀ (st : AppState) (descText : String), descText.trim ≠ "" →
      (add_item st descText none none).items =
        st.items ++ [⟨descText.trim, 0, 0⟩]) ∧
    (∀ st : AppState,
      (update_totals { st with discountField := none }).subtotal_lbl =
          (update_totals { st with discountField := some 0 }).subtotal_lbl ∧
        (update_totals { st with discountField := none }).total_lbl =
          (update_totals { st with discountField := some 0 }).total_lbl) ∧
    uiDiscount none = 0 ∧
    pdfDiscount none = 0 ∧
    money none = money (some 0) ∧
    money none = "0.00 USD" := by
  refine ⟨?_, ?_, by simp [uiDiscount], rfl, rfl, ?_⟩
  · intro st descText h
    unfold add_item
    rw [if_neg h]
    simp [update_totals]
  · intro st
    exact ⟨rfl, rfl⟩
  · exact of_decide_eq_true (by with_unfolding_all rfl)

/-- Witness for C5 at a concrete state and description. -/
theorem C5_malformed_zero_witness :
    (add_item ⟨[], .absent, "c", "a", some 1, "", ""⟩ "x" none none).items =
      ([] : List Item) ++ [⟨"x".trim, 0, 0⟩] :=
  C5_malformed_zero.1 ⟨[], .absent, "c", "a", some 1, "", ""⟩ "x"
    (of_decide_eq_true (by with_unfolding_all rfl))

/-- C6: for a source image of positive pixel size w by h, the fitted
logo box keeps the aspect ratio w/h and fits inside 40mm by 25mm. -/
theorem C6_logo_aspect (w h : Nat) (hw : 0 < w) (hh : 0 < h) :
    (fitLogo w h).1 / (fitLogo w h).2 = (w : ℚ) / (h : ℚ) ∧
    (fitLogo w h).1 ≤ 40 * mmQ ∧ (fitLogo w h).2 ≤ 25 * mmQ := by
  have hw' : (0:ℚ) < (w : ℚ) := by exact_mod_cast hw
  have hh' : (0:ℚ) < (h : ℚ) := by exact_mod_cast hh
  have hmm : (0:ℚ) < mmQ := by norm_num [mmQ]
  have ha : (0:ℚ) < (h : ℚ) / (w : ℚ) := div_pos hh' hw'
  unfold fitLogo
  by_cases hc : 40 * mmQ * ((h : ℚ) / (w : ℚ)) > 25 * mmQ
  · rw [if_pos hc]
    refine ⟨?_, ?_, le_refl _⟩
    · field_simp
      ring
    · rw [div_le_iff₀ ha]
      linarith
  · rw [if_neg hc]
    push_neg at hc
    refine ⟨?_, le_refl _, hc⟩
    field_simp
    ring

/-- Witness for C6 at a 2 by 1 image. -/
theorem C6_logo_aspect_witness :
    (fitLogo 2 1).1 / (fitLogo 2 1).2 = ((2:ℕ) : ℚ) / ((1:ℕ) : ℚ) ∧
    (fitLogo 2 1).1 ≤ 40 * mmQ ∧ (fitLogo 2 1).2 ≤ 25 * mmQ :=
  C6_logo_aspect 2 1 (by decide) (by decide)

/-- C7: an absent, missing, or undecodable logo never aborts
generation (the model is a total function) and produces exactly the
output of a logo-free invoice. -/
theorem C7_logo_failure (company : CompanyInfo) (items : List Item) (d : ℚ)
    (meta : InvoiceMeta) (logo : LogoSrc) (h : logo.isOk = false) :
    generate_pdf company logo items d meta =
      generate_pdf company .absent items d meta := by
  cases logo with
  | ok w hh => simp [LogoSrc.isOk] at h
  | absent => rfl
  | missing => rfl
  | undecodable => rfl

/-- Witness for C7: a missing logo file behaves as no logo. -/
theorem C7_logo_failure_witness :
    generate_pdf ⟨"C", ["a"], "n"⟩ .missing [⟨"A", 1, 2⟩] 0 ⟨"d", "n"⟩ =
      generate_pdf ⟨"C", ["a"], "n"⟩ .absent [⟨"A", 1, 2⟩] 0 ⟨"d", "n"⟩ :=
  C7_logo_failure ⟨"C", ["a"], "n"⟩ [⟨"A", 1, 2⟩] 0 ⟨"d", "n"⟩ .missing rfl

/-- C8: with zero items the generation request is rejected before
rendering: generate_pdf is never invoked, no output is produced, and
the state is returned unchanged. -/
theorem C8_zero_items (st : AppState) (meta : InvoiceMeta)
    (savePathGiven : Bool) (h : st.items = []) :
    generate_invoice_pdf st meta savePathGiven = (st, none) := by
  unfold generate_invoice_pdf
  rw [if_pos h]

/-- Witness for C8 at a concrete empty-item state. -/
theorem C8_zero_items_witness :
    generate_invoice_pdf ⟨[], .absent, "c", "a", some 0, "", ""⟩
        ⟨"d", "n"⟩ true =
      (⟨[], .absent, "c", "a", some 0, "", ""⟩, none) :=
  C8_zero_items ⟨[], .absent, "c", "a", some 0, "", ""⟩ ⟨"d", "n"⟩ true rfl

/-- C9: the totals and notes blocks are emitted with no page-break
check: for the 44-row invoice below, the Total Due line lands below
the 40mm threshold, the last notes line lands below the bottom edge of
the page, and the page count is exactly the one the item loop left. -/
theorem C9_totals_below_threshold :
    (∃ c ∈ (totalsBlock (itemsLoop (List.replicate 44 ⟨"a", 1, 1⟩)).page
        (itemsLoop (List.replicate 44 ⟨"a", 1, 1⟩)).y
        (itemsLoop (List.replicate 44 ⟨"a", 1, 1⟩)).subtotal 0).cmds,
      c.ypos < lowThreshold) ∧
    (∃ c ∈ notesBlock (itemsLoop (List.replicate 44 ⟨"a", 1, 1⟩)).page
        (totalsBlock (itemsLoop (List.replicate 44 ⟨"a", 1, 1⟩)).page
          (itemsLoop (List.replicate 44 ⟨"a", 1, 1⟩)).y
          (itemsLoop (List.replicate 44 ⟨"a", 1, 1⟩)).subtotal 0).y
        "a\na\na\na\na\na\na\na",
      c.ypos < 0) ∧
    (generate_pdf ⟨"C", [], "a\na\na\na\na\na\na\na"⟩ .absent
        (List.replicate 44 ⟨"a", 1, 1⟩) 0 ⟨"d", "n"⟩).pages =
      (itemsLoop (List.replicate 44 ⟨"a", 1, 1⟩)).breaks + 1 := by
  have hcond : lowThreshold ≤ itemsInit.y -
      11 * (lineCount (List.replicate 44 ⟨"a", 1, 1⟩) : ℚ) := by
    rw [lineCount_replicate_a]
    norm_num [itemsInit, table_top, topY, PAGE_HEIGHT, lowThreshold, mmQ]
  obtain ⟨hb, hy, hp⟩ := foldl_processItem_stay (List.replicate 44 ⟨"a", 1, 1⟩)
    itemsInit hcond
  rw [lineCount_replicate_a] at hy
  have hy' : (itemsLoop (List.replicate 44 ⟨"a", 1, 1⟩)).y =
      itemsInit.y - 11 * 44 := hy
  refine ⟨?_, ?_, rfl⟩
  · refine ⟨Cmd.rtext (itemsLoop (List.replicate 44 ⟨"a", 1, 1⟩)).page
      (left_margin + 150 * mmQ)
      ((itemsLoop (List.replicate 44 ⟨"a", 1, 1⟩)).y - 8 - 12 - 12)
      "Total Due:", ?_, ?_⟩
    · simp [totalsBlock]
    · simp only [Cmd.ypos]
      rw [hy']
      norm_num [itemsInit, table_top, topY, PAGE_HEIGHT, lowThreshold, mmQ]
  · have hsplit : "a\na\na\na\na\na\na\na".splitOn "\n" =
        ["a", "a", "a", "a", "a", "a", "a", "a"] :=
      of_decide_eq_true (by with_unfolding_all rfl)
    have hne : ("a\na\na\na\na\na\na\na" : String) ≠ "" := by decide
    have htoty : (totalsBlock (itemsLoop (List.replicate 44 ⟨"a", 1, 1⟩)).page
        (itemsLoop (List.replicate 44 ⟨"a", 1, 1⟩)).y
        (itemsLoop (List.replicate 44 ⟨"a", 1, 1⟩)).subtotal 0).y =
        (itemsLoop (List.replicate 44 ⟨"a", 1, 1⟩)).y - 8 - 12 - 12 := rfl
    refine ⟨Cmd.text (itemsLoop (List.replicate 44 ⟨"a", 1, 1⟩)).page left_margin
      ((totalsBlock (itemsLoop (List.replicate 44 ⟨"a", 1, 1⟩)).page
          (itemsLoop (List.replicate 44 ⟨"a", 1, 1⟩)).y
          (itemsLoop (List.replicate 44 ⟨"a", 1, 1⟩)).subtotal 0).y
        - 25 - 12 - 10 * ((7:ℕ) : ℚ)) "a", ?_, ?_⟩
    · rw [notesBlock, if_neg hne, hsplit]
      refine List.mem_cons_of_mem _ ?_
      refine List.mem_map.mpr ⟨(7, "a"), ?_, rfl⟩
      decide
    · simp only [Cmd.ypos]
      rw [htoty, hy']
      norm_num [itemsInit, table_top, topY, PAGE_HEIGHT, mmQ]

end Invoice
